import Mathlib

/-!
Verification development for the CORD-19 Streamlit dashboard
(`streamlit_app.py`).  The script is shallowly embedded: pandas dataframe
operations become row-wise list transformations, the regex tokenizer of
`get_word_frequency` becomes an explicit left-to-right scanner, and
`collections.Counter` becomes an insertion-ordered association list.
Python/pandas behaviour that can raise (`int(NaN)`, `Series.idxmax` on an
empty series, `DataFrame.sample` with an oversized request,
`WordCloud.generate_from_frequencies` on an empty mapping) is modelled with
`Except`.  Character classes are modelled over the ASCII range, matching the
pattern `[a-zA-Z]` of the source; word characters for the `\b` boundary are
ASCII alphanumerics and underscore.
-/

namespace Cord

/-! ### Characters and generic run splitting -/

/-- Word characters for the purposes of the regex word boundary `\b`
(ASCII model): letters, digits and underscore. -/
def isWordChar (c : Char) : Bool := c.isAlphanum || c == '_'

/-- `splitRuns p cur l` splits `l` into its maximal runs of characters
satisfying `p`, discarding the separating characters; `cur` is the run
accumulated so far.  Instantiated with `Char.isAlpha` it yields the maximal
alphabetic runs, with `isWordChar` the maximal word-character runs, and with
non-whitespace it models Python `str.split()` with no arguments. -/
def splitRuns (p : Char → Bool) : List Char → List Char → List (List Char)
  | cur, [] => if cur.isEmpty then [] else [cur]
  | cur, c :: cs =>
    if p c then splitRuns p (cur ++ [c]) cs
    else (if cur.isEmpty then [] else [cur]) ++ splitRuns p [] cs

/-! ### The tokenizer of `get_word_frequency` (lines 109-117) -/

/-- Scanner modelling `re.findall(r'\b[a-zA-Z]{3,}\b', s)`:
`ok` records whether the character immediately before the current alphabetic
run is absent or a non-word character (the left `\b`), `run` is the alphabetic
run read so far.  A run is emitted when its left boundary held, it has length
at least 3, and the character ending it (or the end of the string) is not a
word character (the right `\b`).  No match of the pattern can begin or end
strictly inside a maximal alphabetic run, so rejected runs are skipped
whole, as the regex engine does. -/
def scanAux : Bool → List Char → List Char → List (List Char)
  | ok, run, [] => if ok && decide (3 ≤ run.length) then [run] else []
  | ok, run, c :: cs =>
    if c.isAlpha then scanAux ok (run ++ [c]) cs
    else
      (if ok && decide (3 ≤ run.length) && !(isWordChar c) then [run] else [])
        ++ scanAux (!(isWordChar c)) [] cs

/-- `re.findall(r'\b[a-zA-Z]{3,}\b', s)` on a list of characters. -/
def findall (l : List Char) : List (List Char) := scanAux true [] l

/-- The fixed stop-word set of `get_word_frequency` (line 114), verbatim. -/
def stopWordsList : List String :=
  ["the", "and", "for", "are", "with", "this", "that", "from", "they", "been",
   "have", "were", "said", "each", "which", "their", "time", "will", "about",
   "can", "may", "use", "her", "him", "his", "she", "was", "one", "our",
   "had", "but", "not", "what", "all", "any", "your", "how", "did", "its"]

/-- `title.lower()` as a character list (ASCII model). -/
def lowerChars (t : String) : List Char := t.toList.map Char.toLower

/-- One title's tokens, as computed by lines 113-115 of the source:
`words = re.findall(r'\b[a-zA-Z]{3,}\b', title.lower())` followed by
`[w for w in words if w not in stop_words]`. -/
def tokenizeTitle (t : String) : List String :=
  ((findall (lowerChars t)).map fun r => String.mk r).filter
    fun w => !(decide (w ∈ stopWordsList))

/-- The claim's reading of the tokenizer, following the spec's words:
maximal runs of alphabetic characters of length at least 3 (with no word
boundary requirement), lowercased, minus the stop words. -/
def claimAlphaTokens (t : String) : List String :=
  (((splitRuns Char.isAlpha [] (lowerChars t)).filter
      fun r => decide (3 ≤ r.length)).map fun r => String.mk r).filter
    fun w => !(decide (w ∈ stopWordsList))

/-- The maximal word-character runs of `l` (the string split on non-word
characters). -/
def wordRuns (l : List Char) : List (List Char) := splitRuns isWordChar [] l

/-- A word-character run kept by the pattern `\b[a-zA-Z]{3,}\b`: entirely
alphabetic and of length at least 3. -/
def goodRun (r : List Char) : Bool := r.all Char.isAlpha && decide (3 ≤ r.length)

/-- Boundary-aware description of the tokenizer, used to state the amended
claim: the maximal word-character runs that are entirely alphabetic and of
length at least 3, lowercased, minus the stop words. -/
def boundaryWords (t : String) : List String :=
  (((wordRuns (lowerChars t)).filter goodRun).map fun r => String.mk r).filter
    fun w => !(decide (w ∈ stopWordsList))

/-! ### `collections.Counter` and `most_common` -/

/-- One `Counter` update: bump the count of `w`, appending a fresh key at the
end, so keys stay in order of first insertion (Python dicts preserve
insertion order). -/
def counterInsert [DecidableEq α] : List (α × Nat) → α → List (α × Nat)
  | [], w => [(w, 1)]
  | (k, v) :: rest, w =>
    if k = w then (k, v + 1) :: rest else (k, v) :: counterInsert rest w

/-- `collections.Counter(ws)`: association list from key to count, keys in
order of first occurrence in `ws`. -/
def counter [DecidableEq α] (ws : List α) : List (α × Nat) :=
  ws.foldl counterInsert []

/-- Stable descending insertion by count: the new entry goes after every
entry with a count greater than or equal to its own, as Python's stable
`sorted(..., reverse=True)` does. -/
def insertByCount : List (α × Nat) → α × Nat → List (α × Nat)
  | [], x => [x]
  | y :: ys, x => if y.2 < x.2 then x :: y :: ys else y :: insertByCount ys x

/-- Stable sort by count, descending. -/
def sortByCountDesc (l : List (α × Nat)) : List (α × Nat) :=
  l.foldl insertByCount []

/-- `Counter.most_common(n)`: entries sorted by count descending, ties in
order of first insertion, truncated to `n` entries. -/
def most_common (m : List (α × Nat)) (n : Nat) : List (α × Nat) :=
  (sortByCountDesc m).take n

/-- All tokens contributed to `all_words` by a sequence of titles
(`titles.dropna()` modelled by `filterMap id`), in order. -/
def allTitleWords (titles : List (Option String)) : List String :=
  ((titles.filterMap id).map tokenizeTitle).flatten

/-- `get_word_frequency(titles)` (lines 109-117): the `Counter` of all
retained tokens. -/
def get_word_frequency (titles : List (Option String)) : List (String × Nat) :=
  counter (allTitleWords titles)

/-- Index of the first occurrence of `a` in `l` (length of `l` when
absent). -/
def firstIdx [DecidableEq α] : List α → α → Nat
  | [], _ => 0
  | b :: l, a => if b = a then 0 else (firstIdx l a) + 1

/-! ### The dataset loader `load_data` (lines 18-52) -/

/-- A raw CSV row restricted to `usecols`; any field may be missing. -/
structure RawRow where
  title : Option String
  publish_time : Option String
  journal : Option String
  authors : Option String
deriving DecidableEq

/-- A cleaned row: non-null title, derived integer year, derived title word
count; `journal` kept as an optional categorical value. -/
structure Row where
  title : String
  year : Int
  journal : Option String
  authors : Option String
  title_word_count : Nat
deriving DecidableEq

/-- `title.split()` (Python, no argument): maximal runs of non-whitespace
characters; models `df['title'].str.split()` of line 43. -/
def pySplit (l : List Char) : List (List Char) :=
  splitRuns (fun c => !c.isWhitespace) [] l

/-- `len(title.split())`, the derived `title_word_count` of line 43. -/
def wordCount (t : String) : Nat := (pySplit t.toList).length

/-- The per-row cleaning pipeline of lines 31-46: drop the row when title or
publish date is missing, when the date does not parse (`pd.to_datetime`
with `errors='coerce'` followed by `dropna`, modelled by the abstract
`parseYear`), or when the derived year is outside the fixed policy bound
[2019, 2023]; otherwise derive the year and the title word count. -/
def cleanRow (parseYear : String → Option Int) (rr : RawRow) : Option Row :=
  match rr.title, rr.publish_time with
  | some t, some pt =>
    match parseYear pt with
    | some y =>
      if 2019 ≤ y ∧ y ≤ 2023 then
        some ⟨t, y, rr.journal, rr.authors, wordCount t⟩
      else none
    | none => none
  | _, _ => none

/-- Row-wise cleaning of the whole table (lines 31-46 are all row-wise and
order-preserving). -/
def clean (parseYear : String → Option Int) (raw : List RawRow) : List Row :=
  raw.filterMap (cleanRow parseYear)

/-- `df.sample(n, random_state=rs)` seed selection: pandas uses the given
`random_state` when present and ambient RNG state otherwise.  The actual
subset selection of the sampling engine is kept abstract as `select`
(seed, requested size, rows). -/
def pandasSampleList (select : Nat → Nat → List Row → List Row)
    (randomState : Option Nat) (rng : Nat) (n : Nat) (l : List Row) :
    List Row :=
  select (randomState.getD rng) n l

/-- `load_data(sample_size)` after the file has been read (lines 31-52):
clean the rows, then, when the cleaned row count exceeds `sample_size`,
downsample with `df.sample(sample_size, random_state=42)`.  The guard keeps
the requested size below the population, so this call cannot raise. -/
def load_data (parseYear : String → Option Int)
    (select : Nat → Nat → List Row → List Row) (rng : Nat)
    (sample_size : Nat) (raw : List RawRow) : List Row :=
  if sample_size < (clean parseYear raw).length then
    pandasSampleList select (some 42) rng sample_size (clean parseYear raw)
  else clean parseYear raw

/-! ### Source file selection (lines 24-29) -/

/-- Failure of the loader when no candidate source file exists. -/
inductive LoadError where
  | DataUnavailable
deriving DecidableEq

/-- Try each candidate path in order; the first existing file wins. -/
def tryPaths (fs : String → Option (List RawRow)) :
    List String → Except LoadError (List RawRow)
  | [] => .error .DataUnavailable
  | p :: rest =>
    match fs p with
    | some t => .ok t
    | none => tryPaths fs rest

/-- The two well-known file names, in the order the source tries them:
`metadata.csv` first, `metadata_sample.csv` as the fallback of the
`except FileNotFoundError` handler. -/
def sourceCandidates : List String := ["metadata.csv", "metadata_sample.csv"]

/-- Lines 24-29: read the first candidate that exists; a missing second
candidate propagates as the fatal `DataUnavailable` condition. -/
def readSource (fs : String → Option (List RawRow)) :
    Except LoadError (List RawRow) :=
  tryPaths fs sourceCandidates

/-! ### The page render (lines 56-147) -/

/-- Python/pandas exceptions reachable by the rendering script. -/
inductive PyError where
  /-- `int(float('nan'))`, from `int(df['year'].min())` on an empty table. -/
  | intOfNaN
  /-- `Series.idxmax()` on an empty series. -/
  | argmaxOfEmptySequence
  /-- `DataFrame.sample(n)` with `n` larger than the population. -/
  | sampleLargerThanPopulation
  /-- `WordCloud.generate_from_frequencies` on an empty mapping. -/
  | needAtLeastOneWord
deriving DecidableEq

/-- `int(df['year'].min())` (line 68): the minimum of the year column, or a
`ValueError` on an empty table since `Series.min()` is then `NaN`. -/
def intYearMin (rows : List Row) : Except PyError Int :=
  match rows with
  | [] => .error .intOfNaN
  | r :: rest => .ok (rest.foldl (fun m x => min m x.year) r.year)

/-- `int(df['year'].max())` (line 69). -/
def intYearMax (rows : List Row) : Except PyError Int :=
  match rows with
  | [] => .error .intOfNaN
  | r :: rest => .ok (rest.foldl (fun m x => max m x.year) r.year)

/-- The inclusive year-range filter of line 74:
`df[(df['year'] >= lo) & (df['year'] <= hi)]`. -/
def filterByYear (lo hi : Int) (rows : List Row) : List Row :=
  rows.filter fun r => decide (lo ≤ r.year) && decide (r.year ≤ hi)

/-- Ascending insertion by key, for `sort_index()`. -/
def insertByKeyAsc : List (Int × Nat) → Int × Nat → List (Int × Nat)
  | [], x => [x]
  | y :: ys, x => if x.1 < y.1 then x :: y :: ys else y :: insertByKeyAsc ys x

/-- `filtered_df['year'].value_counts().sort_index()` (line 81). -/
def valueCountsSortIndex (ys : List Int) : List (Int × Nat) :=
  (counter ys).foldl insertByKeyAsc []

/-- `Series.idxmax()` (line 92): the first index attaining the maximal
value; raises on an empty series. -/
def idxmax (l : List (Int × Nat)) : Except PyError Int :=
  match l with
  | [] => .error .argmaxOfEmptySequence
  | x :: xs => .ok (xs.foldl (fun best p => if best.2 < p.2 then p else best) x).1

/-- `Series.max()` (line 93): `none` models the `NaN` an empty series
yields (displayed, not raised). -/
def seriesMaxOpt (l : List Nat) : Option Nat :=
  match l with
  | [] => none
  | x :: xs => some (xs.foldl max x)

/-- `WordCloud(...).generate_from_frequencies(freqs)` (line 136): raises on
an empty mapping, otherwise produces the image (modelled by its data). -/
def generateFromFrequencies (freqs : List (String × Nat)) :
    Except PyError (List (String × Nat)) :=
  if freqs.isEmpty then .error .needAtLeastOneWord else .ok freqs

/-- Lines 135-140: the word cloud is rendered only behind the guard
`if len(common_words) > 0`; an empty mapping renders nothing. -/
def wordCloudStep (common : List (String × Nat)) :
    Except PyError (Option (List (String × Nat))) :=
  if 0 < common.length then Except.map some (generateFromFrequencies common)
  else .ok none

/-- `df.sample(n)` as called with no `random_state`: the ambient RNG state
seeds the abstract selection; raises when `n` exceeds the population. -/
def pdSample (select : Nat → Nat → List Row → List Row) (seed n : Nat)
    (l : List Row) : Except PyError (List Row) :=
  if l.length < n then .error .sampleLargerThanPopulation
  else .ok (select seed n l)

/-- Line 147: `filtered_df[...].sample(min(10, len(filtered_df)))`. -/
def sampleStep (select : Nat → Nat → List Row → List Row) (rng : Nat)
    (filtered : List Row) : Except PyError (List Row) :=
  pdSample select rng (min 10 filtered.length) filtered

/-- The rendered view: the parts of the page the claims are about. -/
structure AppView where
  totalPapers : Nat
  peakYear : Int
  peakPublications : Option Nat
  commonWords : List (String × Nat)
  wordCloud : Option (List (String × Nat))
  sampleRows : List Row
deriving DecidableEq

/-- The script body after `load_data` (lines 56-147) at the initial render,
where the slider holds its default value `(min year, max year)`: slider
bounds, year filter, yearly counts and peak metrics, word frequencies,
word cloud, and the 10-row sample.  The journal chart and the purely
textual metrics are omitted: they cannot raise.  Steps run in source
order, so the first raising step determines the error. -/
def renderApp (select : Nat → Nat → List Row → List Row) (rng : Nat)
    (df : List Row) : Except PyError AppView := do
  let lo ← intYearMin df
  let hi ← intYearMax df
  let filtered := filterByYear lo hi df
  let yearly := valueCountsSortIndex (filtered.map Row.year)
  let peak ← idxmax yearly
  let peakPubs := seriesMaxOpt (yearly.map Prod.snd)
  let freq := get_word_frequency (filtered.map fun r => some r.title)
  let common := most_common freq 20
  let cloud ← wordCloudStep common
  let sample ← sampleStep select rng filtered
  pure (AppView.mk filtered.length peak peakPubs common cloud sample)

/-- Minimum year of a non-empty table, as the slider lower bound computes
it; `0` as a junk value on the empty table (that case raises, see
`intYearMin`). -/
def minYear (rows : List Row) : Int :=
  match rows with
  | [] => 0
  | r :: rest => rest.foldl (fun m x => min m x.year) r.year

/-- Maximum year of a non-empty table. -/
def maxYear (rows : List Row) : Int :=
  match rows with
  | [] => 0
  | r :: rest => rest.foldl (fun m x => max m x.year) r.year

/-- Count of positions starting a whitespace-delimited token: a
non-whitespace character at the start of the string or right after a
whitespace character.  Independent formulation of the whitespace token
count used to state the `title_word_count` claim. -/
def countTokenStarts : Bool → List Char → Nat
  | _, [] => 0
  | prevWs, c :: cs =>
    (if !c.isWhitespace && prevWs then 1 else 0) + countTokenStarts c.isWhitespace cs

/-! ### Theorems: the tokenizer (C1) -/

theorem word_of_alpha {c : Char} (h : c.isAlpha = true) : isWordChar c = true := by
  simp [isWordChar, Char.isAlphanum, h]

theorem all_alpha_append_bad {cur run : List Char} (x : Char) (hx : x ∈ cur)
    (hxa : x.isAlpha = false) : (cur ++ run).all Char.isAlpha = false := by
  cases hall : (cur ++ run).all Char.isAlpha with
  | false => rfl
  | true =>
    rw [List.all_eq_true] at hall
    exact absurd (hall x (List.mem_append_left run hx)) (by simp [hxa])

theorem filter_goodRun_single {run : List Char}
    (hrun : run.all Char.isAlpha = true) :
    List.filter goodRun [run] = if 3 ≤ run.length then [run] else [] := by
  simp [List.filter_cons, goodRun, hrun]

theorem filter_goodRun_single_bad {run : List Char}
    (hrun : run.all Char.isAlpha = false) : List.filter goodRun [run] = [] := by
  simp [List.filter_cons, goodRun, hrun]

theorem scan_split (l : List Char) :
    (∀ run, run.all Char.isAlpha = true →
      scanAux true run l = (splitRuns isWordChar run l).filter goodRun)
  ∧ (∀ run cur, run.all Char.isAlpha = true → (∃ x ∈ cur, x.isAlpha = false) →
      scanAux false run l = (splitRuns isWordChar (cur ++ run) l).filter goodRun) := by
  induction l with
  | nil =>
    constructor
    · intro run hrun
      cases run with
      | nil => simp [scanAux, splitRuns]
      | cons r rs =>
        rw [show splitRuns isWordChar (r :: rs) [] = [r :: rs] from by
          simp [splitRuns]]
        rw [filter_goodRun_single hrun]
        simp [scanAux]
    · intro run cur hrun hcur
      obtain ⟨x, hx, hxa⟩ := hcur
      have hne : (cur ++ run).isEmpty = false := by
        cases cur with
        | nil => cases hx
        | cons a as => simp
      rw [show splitRuns isWordChar (cur ++ run) [] = [cur ++ run] from by
        simp [splitRuns, hne]]
      rw [filter_goodRun_single_bad (all_alpha_append_bad x hx hxa)]
      simp [scanAux]
  | cons c cs ih =>
    constructor
    · intro run hrun
      cases hca : c.isAlpha with
      | true =>
        have hw := word_of_alpha hca
        have hall : (run ++ [c]).all Char.isAlpha = true := by
          simp [List.all_append, hrun, hca]
        rw [show scanAux true run (c :: cs) = scanAux true (run ++ [c]) cs from by
          simp [scanAux, hca]]
        rw [show splitRuns isWordChar run (c :: cs)
            = splitRuns isWordChar (run ++ [c]) cs from by simp [splitRuns, hw]]
        exact ih.1 (run ++ [c]) hall
      | false =>
        cases hcw : isWordChar c with
        | true =>
          -- a digit or underscore glues the alphabetic run to the next one
          rw [show scanAux true run (c :: cs) = scanAux false [] cs from by
            simp [scanAux, hca, hcw]]
          rw [show splitRuns isWordChar run (c :: cs)
              = splitRuns isWordChar (run ++ [c]) cs from by simp [splitRuns, hcw]]
          simpa using ih.2 [] (run ++ [c]) rfl ⟨c, by simp, hca⟩
        | false =>
          -- a genuine boundary: the run is complete and, when long enough, kept
          rw [show scanAux true run (c :: cs)
              = (if 3 ≤ run.length then [run] else []) ++ scanAux true [] cs from by
            simp [scanAux, hca, hcw]]
          rw [show splitRuns isWordChar run (c :: cs)
              = (if run.isEmpty then [] else [run]) ++ splitRuns isWordChar [] cs
            from by simp [splitRuns, hcw]]
          rw [List.filter_append, ih.1 [] rfl]
          congr 1
          cases run with
          | nil => simp
          | cons r rs =>
            rw [if_neg (by simp : ¬((r :: rs).isEmpty = true)),
              filter_goodRun_single hrun]
    · intro run cur hrun hcur
      obtain ⟨x, hx, hxa⟩ := hcur
      cases hca : c.isAlpha with
      | true =>
        have hw := word_of_alpha hca
        have hall : (run ++ [c]).all Char.isAlpha = true := by
          simp [List.all_append, hrun, hca]
        rw [show scanAux false run (c :: cs) = scanAux false (run ++ [c]) cs from by
          simp [scanAux, hca]]
        rw [show splitRuns isWordChar (cur ++ run) (c :: cs)
            = splitRuns isWordChar ((cur ++ run) ++ [c]) cs from by
          simp [splitRuns, hw]]
        rw [List.append_assoc]
        exact ih.2 (run ++ [c]) cur hall ⟨x, hx, hxa⟩
      | false =>
        cases hcw : isWordChar c with
        | true =>
          rw [show scanAux false run (c :: cs) = scanAux false [] cs from by
            simp [scanAux, hca, hcw]]
          rw [show splitRuns isWordChar (cur ++ run) (c :: cs)
              = splitRuns isWordChar ((cur ++ run) ++ [c]) cs from by
            simp [splitRuns, hcw]]
          have h2 := ih.2 [] ((cur ++ run) ++ [c]) rfl
            ⟨x, by simp [hx], hxa⟩
          simpa using h2
        | false =>
          have hne : (cur ++ run).isEmpty = false := by
            cases cur with
            | nil => cases hx
            | cons a as => simp
          rw [show scanAux false run (c :: cs) = scanAux true [] cs from by
            simp [scanAux, hca, hcw]]
          rw [show splitRuns isWordChar (cur ++ run) (c :: cs)
              = [cur ++ run] ++ splitRuns isWordChar [] cs from by
            simp [splitRuns, hcw, hne]]
          rw [List.filter_append, ih.1 [] rfl,
            filter_goodRun_single_bad (all_alpha_append_bad x hx hxa)]
          rfl

/-- C1: the tokenizer lowercases and extracts via `\b[a-zA-Z]{3,}\b`; the
claim's reading "maximal runs of alphabetic characters of length at least 3"
is refuted by the title "covid19": its maximal alphabetic run "covid" has
length 5 and is not a stop word, so the claim predicts the token "covid",
but the word boundary `\b` cannot match between "d" and "1", so the code
produces no token at all. -/
theorem tokenizer_claim_counterexample :
    tokenizeTitle ("covid19") = []
      ∧ claimAlphaTokens ("covid19") = ["covid"]
      ∧ tokenizeTitle ("covid19") ≠ claimAlphaTokens ("covid19") :=
  ⟨by decide, by decide, by decide⟩

/-- C1 (amended): for every title the tokenizer lowercases it and extracts
exactly the maximal runs of word characters (letters, digits, underscore)
that consist entirely of letters and have length at least 3 — an alphabetic
run adjacent to a digit or underscore is discarded entirely, not merged and
not trimmed — then removes the fixed stop words; the example title still
yields exactly ["new", "covid", "study", "rapid", "results"], with
hyphenated "COVID-19" producing "covid" and not "covid19". -/
theorem tokenizer_extracts_boundary_runs :
    (∀ t : String, tokenizeTitle t = boundaryWords t)
  ∧ tokenizeTitle ("The New COVID-19 Study: Rapid Results!")
      = ["new", "covid", "study", "rapid", "results"] := by
  constructor
  · intro t
    unfold tokenizeTitle boundaryWords wordRuns findall
    rw [(scan_split (lowerChars t)).1 [] rfl]
  · decide

/-! ### Theorems: the loader (C3, C4, C5) -/

theorem splitRuns_length_eq_countTokenStarts (l : List Char) : ∀ cur,
    (splitRuns (fun c => !c.isWhitespace) cur l).length
      = if cur.isEmpty then countTokenStarts true l else 1 + countTokenStarts false l := by
  induction l with
  | nil =>
    intro cur
    cases cur <;> simp [splitRuns, countTokenStarts]
  | cons c cs ih =>
    intro cur
    cases hw : c.isWhitespace with
    | true =>
      rw [show splitRuns (fun c => !c.isWhitespace) cur (c :: cs)
          = (if cur.isEmpty then [] else [cur]) ++ splitRuns (fun c => !c.isWhitespace) [] cs
        from by simp [splitRuns, hw]]
      rw [List.length_append, ih []]
      cases cur <;> simp [countTokenStarts, hw]
    | false =>
      rw [show splitRuns (fun c => !c.isWhitespace) cur (c :: cs)
          = splitRuns (fun c => !c.isWhitespace) (cur ++ [c]) cs
        from by simp [splitRuns, hw]]
      rw [ih (cur ++ [c])]
      cases cur <;> simp [countTokenStarts, hw]

theorem wordCount_eq_countTokenStarts (t : String) :
    wordCount t = countTokenStarts true t.toList := by
  rw [wordCount, pySplit, splitRuns_length_eq_countTokenStarts t.toList []]
  rfl

theorem cleanRow_some {parseYear : String → Option Int} {rr : RawRow} {row : Row}
    (h : cleanRow parseYear rr = some row) :
    rr.title = some row.title ∧ 2019 ≤ row.year ∧ row.year ≤ 2023
      ∧ row.title_word_count = wordCount row.title
      ∧ ∃ pt, rr.publish_time = some pt ∧ parseYear pt = some row.year := by
  unfold cleanRow at h
  cases ht : rr.title with
  | none => cases hpt : rr.publish_time <;> simp [ht, hpt] at h
  | some t =>
    cases hpt : rr.publish_time with
    | none => simp [ht, hpt] at h
    | some pt =>
      simp only [ht, hpt] at h
      cases hy : parseYear pt with
      | none => simp [hy] at h
      | some y =>
        simp only [hy] at h
        by_cases hr : 2019 ≤ y ∧ y ≤ 2023
        · rw [if_pos hr] at h
          cases h
          exact ⟨rfl, hr.1, hr.2, rfl, pt, rfl, hy⟩
        · rw [if_neg hr] at h
          cases h

theorem cleanRow_eq_some_of_fields {parseYear : String → Option Int}
    {rr : RawRow} {t pt : String} {y : Int} (ht : rr.title = some t)
    (hpt : rr.publish_time = some pt) (hy : parseYear pt = some y)
    (h1 : 2019 ≤ y) (h2 : y ≤ 2023) :
    cleanRow parseYear rr
      = some ⟨t, y, rr.journal, rr.authors, wordCount t⟩ := by
  unfold cleanRow
  simp only [ht, hpt, hy]
  rw [if_pos ⟨h1, h2⟩]

theorem cleanRow_eq_none_iff (parseYear : String → Option Int) (rr : RawRow) :
    cleanRow parseYear rr = none ↔
      ¬ ∃ t pt y, rr.title = some t ∧ rr.publish_time = some pt
          ∧ parseYear pt = some y ∧ 2019 ≤ y ∧ y ≤ 2023 := by
  constructor
  · intro hnone hex
    obtain ⟨t, pt, y, ht, hpt, hy, h1, h2⟩ := hex
    rw [cleanRow_eq_some_of_fields ht hpt hy h1 h2] at hnone
    cases hnone
  · intro hn
    cases hc : cleanRow parseYear rr with
    | none => rfl
    | some row =>
      obtain ⟨ht, h1, h2, -, pt, hpt, hy⟩ := cleanRow_some hc
      exact absurd ⟨row.title, pt, row.year, ht, hpt, hy, h1, h2⟩ hn

theorem mem_of_mem_load_data {parseYear : String → Option Int}
    {select : Nat → Nat → List Row → List Row} {rng sample_size : Nat}
    {raw : List RawRow} {row : Row}
    (hsub : ∀ s n l, ∀ x ∈ select s n l, x ∈ l)
    (h : row ∈ load_data parseYear select rng sample_size raw) :
    row ∈ clean parseYear raw := by
  unfold load_data at h
  by_cases hc : sample_size < (clean parseYear raw).length
  · rw [if_pos hc] at h
    exact hsub _ _ _ _ h
  · rwa [if_neg hc] at h

/-- C3: every row retained by the loader has a non-null title (it is the
title of some raw row) and a year in the fixed inclusive policy bound
[2019, 2023]; a raw row is dropped, per row and without failure, exactly
when its title is missing, its publish date is missing or unparseable, or
its year falls outside the bound. -/
theorem load_data_year_invariant (parseYear : String → Option Int)
    (select : Nat → Nat → List Row → List Row) (rng sample_size : Nat)
    (raw : List RawRow) (hsub : ∀ s n l, ∀ x ∈ select s n l, x ∈ l) :
    (∀ row ∈ load_data parseYear select rng sample_size raw,
        2019 ≤ row.year ∧ row.year ≤ 2023 ∧ ∃ rr ∈ raw, rr.title = some row.title)
  ∧ (∀ rr, cleanRow parseYear rr = none ↔
      ¬ ∃ t pt y, rr.title = some t ∧ rr.publish_time = some pt
          ∧ parseYear pt = some y ∧ 2019 ≤ y ∧ y ≤ 2023) := by
  constructor
  · intro row hrow
    obtain ⟨rr, hrr, hcr⟩ :=
      List.mem_filterMap.mp (mem_of_mem_load_data hsub hrow)
    have h := cleanRow_some hcr
    exact ⟨h.2.1, h.2.2.1, rr, hrr, h.1⟩
  · exact cleanRow_eq_none_iff parseYear

/-- C4: for every retained row, the derived `title_word_count` equals the
number of whitespace-delimited tokens of the raw title — the count of
positions where a non-whitespace character starts a token — with no
normalization; "Rapid COVID-19 Testing Methods" yields 4. -/
theorem title_word_count_spec (parseYear : String → Option Int)
    (select : Nat → Nat → List Row → List Row) (rng sample_size : Nat)
    (raw : List RawRow) (hsub : ∀ s n l, ∀ x ∈ select s n l, x ∈ l) :
    (∀ row ∈ load_data parseYear select rng sample_size raw,
        row.title_word_count = countTokenStarts true row.title.toList)
  ∧ countTokenStarts true (String.toList ("Rapid COVID-19 Testing Methods")) = 4 := by
  constructor
  · intro row hrow
    obtain ⟨rr, hrr, hcr⟩ :=
      List.mem_filterMap.mp (mem_of_mem_load_data hsub hrow)
    rw [(cleanRow_some hcr).2.2.2.1, wordCount_eq_countTokenStarts]
  · decide

/-- C5: the sampling seed is fixed (`random_state=42`), so the loaded table
does not depend on the ambient RNG state — two loads with the same
sample-size argument agree exactly — and when the cleaned row count exceeds
the cap the result has exactly `sample_size` rows. -/
theorem load_data_deterministic (parseYear : String → Option Int)
    (select : Nat → Nat → List Row → List Row) (rng1 rng2 : Nat)
    (sample_size : Nat) (raw : List RawRow) :
    load_data parseYear select rng1 sample_size raw
      = load_data parseYear select rng2 sample_size raw
  ∧ ((∀ s n l, n ≤ l.length → (select s n l).length = n) →
      sample_size < (clean parseYear raw).length →
      (load_data parseYear select rng1 sample_size raw).length = sample_size) := by
  constructor
  · rfl
  · intro hlen hc
    unfold load_data
    rw [if_pos hc]
    exact hlen 42 _ _ (Nat.le_of_lt hc)

/-- Concrete date parser for witnesses. -/
def parseYearFix : String → Option Int := fun s =>
  if s = "2020-05-01" then some 2020
  else if s = "1999-01-01" then some 1999 else none

/-- Concrete raw table for witnesses: one good row, one missing title, one
out-of-range year, one unparseable date. -/
def rawFix : List RawRow :=
  [⟨some ("Rapid COVID-19 Testing Methods"), some ("2020-05-01"), some ("J"), none⟩,
   ⟨none, some ("2020-05-01"), none, none⟩,
   ⟨some ("Old paper"), some ("1999-01-01"), none, none⟩,
   ⟨some ("Bad date"), some ("not-a-date"), none, none⟩]

/-- Identity sampler (a subset selection) for witnesses. -/
def selectIdFix : Nat → Nat → List Row → List Row := fun _ _ l => l

/-- Prefix sampler (selects exactly `n` rows when possible) for witnesses. -/
def selectTakeFix : Nat → Nat → List Row → List Row := fun _ n l => l.take n

theorem load_data_year_invariant_witness :
    (∀ s n l, ∀ x ∈ selectIdFix s n l, x ∈ l)
  ∧ ((∀ row ∈ load_data parseYearFix selectIdFix 0 5 rawFix,
        2019 ≤ row.year ∧ row.year ≤ 2023 ∧ ∃ rr ∈ rawFix, rr.title = some row.title)
     ∧ (∀ rr, cleanRow parseYearFix rr = none ↔
          ¬ ∃ t pt y, rr.title = some t ∧ rr.publish_time = some pt
              ∧ parseYearFix pt = some y ∧ 2019 ≤ y ∧ y ≤ 2023)) :=
  ⟨fun _ _ _ _ hx => hx,
   load_data_year_invariant parseYearFix selectIdFix 0 5 rawFix
     (fun _ _ _ _ hx => hx)⟩

theorem title_word_count_spec_witness :
    (∀ s n l, ∀ x ∈ selectIdFix s n l, x ∈ l)
  ∧ ((∀ row ∈ load_data parseYearFix selectIdFix 0 5 rawFix,
        row.title_word_count = countTokenStarts true row.title.toList)
     ∧ countTokenStarts true (String.toList ("Rapid COVID-19 Testing Methods")) = 4) :=
  ⟨fun _ _ _ _ hx => hx,
   title_word_count_spec parseYearFix selectIdFix 0 5 rawFix
     (fun _ _ _ _ hx => hx)⟩

theorem load_data_deterministic_witness :
    (∀ s n (l : List Row), n ≤ l.length → (selectTakeFix s n l).length = n)
  ∧ (0 < (clean parseYearFix rawFix).length)
  ∧ (load_data parseYearFix selectTakeFix 0 0 rawFix
       = load_data parseYearFix selectTakeFix 1 0 rawFix)
  ∧ ((load_data parseYearFix selectTakeFix 0 0 rawFix).length = 0) :=
  ⟨fun _ n l h => by simp [selectTakeFix]; omega,
   by decide,
   (load_data_deterministic parseYearFix selectTakeFix 0 1 0 rawFix).1,
   (load_data_deterministic parseYearFix selectTakeFix 0 1 0 rawFix).2
     (fun _ n l h => by simp [selectTakeFix]; omega) (by decide)⟩

/-! ### Theorems: the year-range filter (C6) -/

theorem foldl_min_year (l : List Row) : ∀ init : Int,
    l.foldl (fun m x => min m x.year) init ≤ init
      ∧ ∀ r ∈ l, l.foldl (fun m x => min m x.year) init ≤ r.year := by
  induction l with
  | nil => intro init; simp
  | cons a l ih =>
    intro init
    refine ⟨le_trans (ih (min init a.year)).1 (min_le_left _ _), ?_⟩
    intro r hr
    rcases List.mem_cons.mp hr with rfl | hr
    · exact le_trans (ih (min init r.year)).1 (min_le_right _ _)
    · exact (ih (min init a.year)).2 r hr

theorem foldl_max_year (l : List Row) : ∀ init : Int,
    init ≤ l.foldl (fun m x => max m x.year) init
      ∧ ∀ r ∈ l, r.year ≤ l.foldl (fun m x => max m x.year) init := by
  induction l with
  | nil => intro init; simp
  | cons a l ih =>
    intro init
    refine ⟨le_trans (le_max_left _ _) (ih (max init a.year)).1, ?_⟩
    intro r hr
    rcases List.mem_cons.mp hr with rfl | hr
    · exact le_trans (le_max_right _ _) (ih (max init r.year)).1
    · exact (ih (max init a.year)).2 r hr

theorem minYear_le {rows : List Row} {r : Row} (hne : rows ≠ [])
    (hr : r ∈ rows) : minYear rows ≤ r.year := by
  cases rows with
  | nil => exact absurd rfl hne
  | cons a l =>
    rcases List.mem_cons.mp hr with rfl | hr
    · exact (foldl_min_year l r.year).1
    · exact (foldl_min_year l a.year).2 r hr

theorem le_maxYear {rows : List Row} {r : Row} (hne : rows ≠ [])
    (hr : r ∈ rows) : r.year ≤ maxYear rows := by
  cases rows with
  | nil => exact absurd rfl hne
  | cons a l =>
    rcases List.mem_cons.mp hr with rfl | hr
    · exact (foldl_max_year l r.year).1
    · exact (foldl_max_year l a.year).2 r hr

/-- C6: the year-range filter is inclusive on both ends — it keeps exactly
the rows with `lo ≤ year ≤ hi` — and with the slider at its default value
(the table's minimum and maximum year) it returns the full table. -/
theorem filterByYear_spec (rows : List Row) (lo hi : Int) :
    (∀ r, r ∈ filterByYear lo hi rows ↔ r ∈ rows ∧ lo ≤ r.year ∧ r.year ≤ hi)
  ∧ (rows ≠ [] → filterByYear (minYear rows) (maxYear rows) rows = rows) := by
  constructor
  · intro r
    simp [filterByYear, List.mem_filter]
  · intro hne
    rw [filterByYear, List.filter_eq_self.mpr]
    intro r hr
    simp only [Bool.and_eq_true, decide_eq_true_eq]
    exact ⟨minYear_le hne hr, le_maxYear hne hr⟩

/-- A two-row table for the C6 witness. -/
def rowsFix : List Row :=
  [⟨"A", 2020, none, none, 1⟩, ⟨"B", 2022, none, none, 1⟩]

theorem filterByYear_spec_witness :
    rowsFix ≠ []
  ∧ ((⟨"A", 2020, none, none, 1⟩ : Row) ∈ filterByYear 2019 2023 rowsFix ↔
      (⟨"A", 2020, none, none, 1⟩ : Row) ∈ rowsFix
        ∧ (2019 : Int) ≤ 2020 ∧ (2020 : Int) ≤ 2023)
  ∧ filterByYear (minYear rowsFix) (maxYear rowsFix) rowsFix = rowsFix :=
  ⟨by decide,
   (filterByYear_spec rowsFix 2019 2023).1 ⟨"A", 2020, none, none, 1⟩,
   (filterByYear_spec rowsFix 2019 2023).2 (by decide)⟩

/-! ### Theorems: `Counter` and `most_common` (C2, C7) -/

theorem mem_insertByCount {l : List (α × Nat)} {x b : α × Nat} :
    b ∈ insertByCount l x ↔ b = x ∨ b ∈ l := by
  induction l with
  | nil => simp [insertByCount]
  | cons y ys ih =>
    by_cases h : y.2 < x.2
    · simp [insertByCount, h]
    · simp [insertByCount, h, ih]
      tauto

theorem insertByCount_sorted {l : List (α × Nat)} (x : α × Nat)
    (h : l.Pairwise fun a b => b.2 ≤ a.2) :
    (insertByCount l x).Pairwise fun a b => b.2 ≤ a.2 := by
  induction l with
  | nil => simp [insertByCount]
  | cons y ys ih =>
    rw [List.pairwise_cons] at h
    by_cases hyx : y.2 < x.2
    · rw [show insertByCount (y :: ys) x = x :: y :: ys from by
        simp [insertByCount, hyx]]
      rw [List.pairwise_cons]
      refine ⟨?_, List.pairwise_cons.mpr ⟨h.1, h.2⟩⟩
      intro b hb
      rcases List.mem_cons.mp hb with rfl | hb
      · exact le_of_lt hyx
      · exact le_trans (h.1 b hb) (le_of_lt hyx)
    · rw [show insertByCount (y :: ys) x = y :: insertByCount ys x from by
        simp [insertByCount, hyx]]
      rw [List.pairwise_cons]
      refine ⟨?_, ih h.2⟩
      intro b hb
      rcases mem_insertByCount.mp hb with rfl | hb
      · exact Nat.le_of_not_lt hyx
      · exact h.1 b hb

theorem insertByCount_perm (l : List (α × Nat)) (x : α × Nat) :
    List.Perm (insertByCount l x) (x :: l) := by
  induction l with
  | nil => simp [insertByCount]
  | cons y ys ih =>
    by_cases h : y.2 < x.2
    · rw [show insertByCount (y :: ys) x = x :: y :: ys from by
        simp [insertByCount, h]]
    · rw [show insertByCount (y :: ys) x = y :: insertByCount ys x from by
        simp [insertByCount, h]]
      exact (ih.cons y).trans (List.Perm.swap x y ys)

theorem insertByCount_split {l : List (α × Nat)} (x : α × Nat)
    (h : l.Pairwise fun a b => b.2 ≤ a.2) :
    ∃ u v, insertByCount l x = u ++ x :: v ∧ l = u ++ v
      ∧ ∀ b ∈ v, b.2 < x.2 := by
  induction l with
  | nil => exact ⟨[], [], rfl, rfl, by simp⟩
  | cons y ys ih =>
    rw [List.pairwise_cons] at h
    by_cases hyx : y.2 < x.2
    · refine ⟨[], y :: ys, by simp [insertByCount, hyx], rfl, ?_⟩
      intro b hb
      rcases List.mem_cons.mp hb with rfl | hb
      · exact hyx
      · exact lt_of_le_of_lt (h.1 b hb) hyx
    · obtain ⟨u, v, he, hl, hv⟩ := ih h.2
      refine ⟨y :: u, v, ?_, by simp [hl], hv⟩
      rw [show insertByCount (y :: ys) x = y :: insertByCount ys x from by
        simp [insertByCount, hyx]]
      rw [he]
      rfl

theorem foldl_insertByCount_sorted (m : List (α × Nat)) : ∀ acc,
    acc.Pairwise (fun a b => b.2 ≤ a.2) →
    (m.foldl insertByCount acc).Pairwise fun a b => b.2 ≤ a.2 := by
  induction m with
  | nil => exact fun acc h => h
  | cons x m ih => exact fun acc h => ih _ (insertByCount_sorted x h)

theorem sortByCountDesc_sorted (m : List (α × Nat)) :
    (sortByCountDesc m).Pairwise fun a b => b.2 ≤ a.2 :=
  foldl_insertByCount_sorted m [] (by simp)

theorem foldl_insertByCount_perm (m : List (α × Nat)) : ∀ acc,
    List.Perm (m.foldl insertByCount acc) (m ++ acc) := by
  induction m with
  | nil => intro acc; simp
  | cons x m ih =>
    intro acc
    have h1 : List.Perm (m.foldl insertByCount (insertByCount acc x))
        (m ++ insertByCount acc x) := ih _
    have h2 : List.Perm (m ++ insertByCount acc x) (m ++ (x :: acc)) :=
      List.Perm.append_left m (insertByCount_perm acc x)
    have h3 : List.Perm (m ++ (x :: acc)) (x :: (m ++ acc)) := List.perm_middle
    exact (h1.trans h2).trans h3

theorem sortByCountDesc_perm (m : List (α × Nat)) :
    List.Perm (sortByCountDesc m) m := by
  have h := foldl_insertByCount_perm m []
  simpa [sortByCountDesc] using h

theorem foldl_insertByCount_stable {T : α × Nat → α × Nat → Prop}
    (m : List (α × Nat)) : ∀ acc,
    acc.Pairwise (fun a b => b.2 ≤ a.2) →
    acc.Pairwise (fun a b => a.2 = b.2 → T a b) →
    (∀ a ∈ acc, ∀ x ∈ m, T a x) →
    m.Pairwise T →
    (m.foldl insertByCount acc).Pairwise fun a b => a.2 = b.2 → T a b := by
  induction m with
  | nil => exact fun acc _ h2 _ _ => h2
  | cons x m ih =>
    intro acc hs h2 hcross hm
    rw [List.pairwise_cons] at hm
    apply ih
    · exact insertByCount_sorted x hs
    · obtain ⟨u, v, he, hl, hv⟩ := insertByCount_split x hs
      subst hl
      rw [he]
      rw [List.pairwise_append] at h2 ⊢
      refine ⟨h2.1, ?_, ?_⟩
      · rw [List.pairwise_cons]
        refine ⟨?_, h2.2.1⟩
        intro b hb heq
        exact absurd heq (by have := hv b hb; omega)
      · intro a ha b hb
        rcases List.mem_cons.mp hb with rfl | hb
        · intro _
          exact hcross a (List.mem_append_left v ha) b (List.mem_cons_self b m)
        · exact h2.2.2 a ha b hb
    · intro a ha z hz
      rcases mem_insertByCount.mp ha with rfl | ha
      · exact hm.1 z hz
      · exact hcross a ha z (List.mem_cons_of_mem x hz)
    · exact hm.2

/-! Keys of a `Counter` are in first-occurrence order. -/

theorem counterInsert_keys [DecidableEq α] (m : List (α × Nat)) (w : α) :
    (counterInsert m w).map Prod.fst
      = if w ∈ m.map Prod.fst then m.map Prod.fst
        else m.map Prod.fst ++ [w] := by
  induction m with
  | nil => simp [counterInsert]
  | cons kv m ih =>
    obtain ⟨k, v⟩ := kv
    by_cases hk : k = w
    · subst hk
      simp [counterInsert]
    · rw [show counterInsert ((k, v) :: m) w = (k, v) :: counterInsert m w from by
        simp [counterInsert, hk]]
      by_cases hm : w ∈ m.map Prod.fst
      · simp [ih, hm, Ne.symm hk]
      · simp [ih, hm, Ne.symm hk]

theorem counter_concat [DecidableEq α] (ws : List α) (w : α) :
    counter (ws ++ [w]) = counterInsert (counter ws) w := by
  simp [counter, List.foldl_append]

theorem mem_counter_keys [DecidableEq α] (ws : List α) : ∀ w : α,
    w ∈ (counter ws).map Prod.fst ↔ w ∈ ws := by
  induction ws using List.reverseRecOn with
  | nil => intro w; simp [counter]
  | append_singleton l a ih =>
    intro w
    rw [counter_concat, counterInsert_keys]
    by_cases h : a ∈ (counter l).map Prod.fst
    · rw [if_pos h, ih w]
      have ha : a ∈ l := (ih a).mp h
      constructor
      · exact fun hw => List.mem_append_left [a] hw
      · intro hw
        rcases List.mem_append.mp hw with hw | hw
        · exact hw
        · rcases List.mem_singleton.mp hw with rfl
          exact ha
    · rw [if_neg h]
      simp [List.mem_append, ih w]

theorem firstIdx_append_left [DecidableEq α] {l : List α} (l2 : List α)
    {a : α} (h : a ∈ l) : firstIdx (l ++ l2) a = firstIdx l a := by
  induction l with
  | nil => cases h
  | cons b l ih =>
    by_cases hb : b = a
    · simp [firstIdx, hb]
    · rcases List.mem_cons.mp h with rfl | h
      · exact absurd rfl hb
      · simp [firstIdx, hb, ih h]

theorem firstIdx_append_right [DecidableEq α] {l : List α} (l2 : List α)
    {a : α} (h : a ∉ l) : firstIdx (l ++ l2) a = l.length + firstIdx l2 a := by
  induction l with
  | nil => simp
  | cons b l ih =>
    have hb : b ≠ a := fun he => h (he ▸ List.mem_cons_self b l)
    have hl : a ∉ l := fun he => h (List.mem_cons_of_mem b he)
    simp [firstIdx, hb, ih hl]
    omega

theorem firstIdx_lt_length [DecidableEq α] {l : List α} {a : α} (h : a ∈ l) :
    firstIdx l a < l.length := by
  induction l with
  | nil => cases h
  | cons b l ih =>
    by_cases hb : b = a
    · simp [firstIdx, hb]
    · rcases List.mem_cons.mp h with rfl | h
      · exact absurd rfl hb
      · simp only [firstIdx, if_neg hb, List.length_cons]
        exact Nat.succ_lt_succ (ih h)

theorem counter_keys_pairwise [DecidableEq α] (ws : List α) :
    ((counter ws).map Prod.fst).Pairwise
      fun x y => firstIdx ws x < firstIdx ws y := by
  induction ws using List.reverseRecOn with
  | nil => simp [counter]
  | append_singleton l a ih =>
    rw [counter_concat, counterInsert_keys]
    by_cases h : a ∈ (counter l).map Prod.fst
    · rw [if_pos h]
      refine List.Pairwise.imp_of_mem ?_ ih
      intro x y hx hy hxy
      rw [firstIdx_append_left [a] ((mem_counter_keys l x).mp hx),
        firstIdx_append_left [a] ((mem_counter_keys l y).mp hy)]
      exact hxy
    · rw [if_neg h]
      rw [List.pairwise_append]
      refine ⟨?_, by simp, ?_⟩
      · refine List.Pairwise.imp_of_mem ?_ ih
        intro x y hx hy hxy
        rw [firstIdx_append_left [a] ((mem_counter_keys l x).mp hx),
          firstIdx_append_left [a] ((mem_counter_keys l y).mp hy)]
        exact hxy
      · intro x hx y hy
        rcases List.mem_singleton.mp hy with rfl
        have hxl : x ∈ l := (mem_counter_keys l x).mp hx
        have hal : y ∉ l := fun hc => h ((mem_counter_keys l y).mpr hc)
        rw [firstIdx_append_left [y] hxl, firstIdx_append_right [y] hal]
        have h1 := firstIdx_lt_length hxl
        have h2 : firstIdx [y] y = 0 := by simp [firstIdx]
        omega

theorem counter_pairwise_firstIdx [DecidableEq α] (ws : List α) :
    (counter ws).Pairwise fun a b => firstIdx ws a.1 < firstIdx ws b.1 := by
  have h := counter_keys_pairwise ws
  rw [List.pairwise_map] at h
  exact h

/-- C2: `most_common` orders the frequency entries by count descending,
ties broken by the position of the word's first occurrence in the token
stream of the input titles (stable sort over a first-occurrence-ordered
`Counter`); for titles ["cat dog cat", "dog bird"] the result is
[("cat", 2), ("dog", 2), ("bird", 1)], cat before dog. -/
theorem most_common_ordering (titles : List (Option String)) (n : Nat) :
    ((most_common (get_word_frequency titles) n).Pairwise fun a b => b.2 ≤ a.2)
  ∧ ((most_common (get_word_frequency titles) n).Pairwise fun a b =>
        a.2 = b.2 →
          firstIdx (allTitleWords titles) a.1 < firstIdx (allTitleWords titles) b.1)
  ∧ most_common (get_word_frequency [some ("cat dog cat"), some ("dog bird")]) 20
      = [("cat", 2), ("dog", 2), ("bird", 1)] := by
  refine ⟨?_, ?_, by decide⟩
  · exact List.Pairwise.sublist (List.take_sublist n _) (sortByCountDesc_sorted _)
  · refine List.Pairwise.sublist (List.take_sublist n _) ?_
    refine foldl_insertByCount_stable _ [] (by simp) (by simp) (by simp) ?_
    exact counter_pairwise_firstIdx (allTitleWords titles)

/-- C7: `most_common` truncates to at most `topN` entries (exactly
`min topN (number of distinct words)`), and on a non-empty mapping the top-1
result is a single entry of globally maximal count. -/
theorem most_common_truncates (m : List (String × Nat)) (n : Nat) :
    (most_common m n).length = min n m.length
  ∧ (m ≠ [] → ∃ e, most_common m 1 = [e] ∧ e ∈ m ∧ ∀ x ∈ m, x.2 ≤ e.2) := by
  constructor
  · rw [most_common, List.length_take, (sortByCountDesc_perm m).length_eq]
  · intro hm
    have hp := sortByCountDesc_perm m
    have hs := sortByCountDesc_sorted m
    cases hsort : sortByCountDesc m with
    | nil =>
      rw [hsort] at hp
      exact absurd (hp.symm.eq_nil) hm
    | cons e rest =>
      refine ⟨e, by simp [most_common, hsort], ?_, ?_⟩
      · exact hp.subset (hsort ▸ List.mem_cons_self e rest)
      · intro x hx
        have hxs : x ∈ sortByCountDesc m := hp.symm.subset hx
        rw [hsort] at hxs hs
        rcases List.mem_cons.mp hxs with rfl | hxrest
        · exact le_refl _
        · exact (List.pairwise_cons.mp hs).1 x hxrest

/-- A five-distinct-word mapping for the C7 witness. -/
def freqFix : List (String × Nat) :=
  [("alpha", 1), ("beta", 5), ("gamma", 2), ("delta", 3), ("epsilon", 4)]

theorem most_common_truncates_witness :
    freqFix ≠ []
  ∧ (most_common freqFix 1).length = min 1 freqFix.length
  ∧ (∃ e, most_common freqFix 1 = [e] ∧ e ∈ freqFix ∧ ∀ x ∈ freqFix, x.2 ≤ e.2) :=
  ⟨by decide,
   (most_common_truncates freqFix 1).1,
   (most_common_truncates freqFix 1).2 (by decide)⟩

/-! ### Theorems: empty-state render (C8), source selection (C9),
sample request (C10) -/

/-- C8: the claim that a zero-row dataset still renders without error is
refuted: the very first step, the slider bound `int(df['year'].min())`
(line 68), raises `ValueError` because `Series.min()` of an empty column
is `NaN` (and `yearly_counts.idxmax()` at line 92 would likewise raise on
an empty series). -/
theorem empty_render_counterexample :
    renderApp (fun _ n l => l.take n) 0 [] = Except.error PyError.intOfNaN := rfl

/-- C8 (amended): a dataset with zero rows after cleaning does not produce
a non-erroring empty-state render — whatever the sampler and RNG state, the
render fails at the slider-bound computation `int` of the `NaN` year
minimum.  The word-cloud part of the claim does hold: an empty
word-frequency result degrades the word cloud to a no-op behind the
`len(common_words) > 0` guard rather than an error, and the word-frequency
computation itself never fails (it is total, and empty input yields the
empty mapping). -/
theorem empty_state_render_errors :
    (∀ (select : Nat → Nat → List Row → List Row) (rng : Nat),
        renderApp select rng [] = Except.error PyError.intOfNaN)
  ∧ wordCloudStep [] = Except.ok none
  ∧ get_word_frequency [] = [] :=
  ⟨fun _ _ => rfl, rfl, rfl⟩

/-- C9: the loader tries `metadata.csv` then `metadata_sample.csv`, in that
order; it fails with `DataUnavailable` exactly when neither exists, and
otherwise returns the table of the first candidate that exists — there is
no partial-success mode. -/
theorem readSource_spec (fs : String → Option (List RawRow)) :
    (readSource fs = Except.error LoadError.DataUnavailable ↔
      fs ("metadata.csv") = none ∧ fs ("metadata_sample.csv") = none)
  ∧ (∀ t, fs ("metadata.csv") = some t → readSource fs = Except.ok t)
  ∧ (∀ t, fs ("metadata.csv") = none → fs ("metadata_sample.csv") = some t →
      readSource fs = Except.ok t)
  ∧ ((∃ t, readSource fs = Except.ok t)
      ∨ readSource fs = Except.error LoadError.DataUnavailable) := by
  unfold readSource sourceCandidates
  cases h1 : fs ("metadata.csv") with
  | some t1 =>
    refine ⟨?_, ?_, ?_, ?_⟩
    · simp [tryPaths, h1]
    · intro t ht
      have hte : t1 = t := Option.some.inj ht
      subst hte
      simp [tryPaths, h1]
    · intro t ht
      exact Option.noConfusion ht
    · exact Or.inl ⟨t1, by simp [tryPaths, h1]⟩
  | none =>
    cases h2 : fs ("metadata_sample.csv") with
    | some t2 =>
      refine ⟨?_, ?_, ?_, ?_⟩
      · simp [tryPaths, h1, h2]
      · intro t ht
        exact Option.noConfusion ht
      · intro t _ ht
        have hte : t2 = t := Option.some.inj ht
        subst hte
        simp [tryPaths, h1, h2]
      · exact Or.inl ⟨t2, by simp [tryPaths, h1, h2]⟩
    | none =>
      refine ⟨?_, ?_, ?_, ?_⟩
      · simp [tryPaths, h1, h2]
      · intro t ht
        exact Option.noConfusion ht
      · intro t _ ht
        exact Option.noConfusion ht
      · exact Or.inr (by simp [tryPaths, h1, h2])

/-- A filesystem with only the fallback file, for the C9 witness. -/
def fsFix : String → Option (List RawRow) := fun p =>
  if p = "metadata_sample.csv" then some [] else none

theorem readSource_spec_witness :
    fsFix ("metadata.csv") = none
  ∧ fsFix ("metadata_sample.csv") = some []
  ∧ readSource fsFix = Except.ok [] :=
  ⟨by decide, by decide,
   (readSource_spec fsFix).2.2.1 [] (by decide) (by decide)⟩

/-- C10: the sample-table display requests `min(10, n)` rows from the
filtered table of `n` rows, a request never exceeding the population, so
the sampling step returns a value and never raises — also on tables with
fewer than 10 rows or zero rows. -/
theorem sample_step_safe (select : Nat → Nat → List Row → List Row)
    (rng : Nat) (filtered : List Row) :
    min 10 filtered.length ≤ filtered.length
  ∧ ∃ v, sampleStep select rng filtered = Except.ok v := by
  refine ⟨Nat.min_le_right 10 filtered.length,
    ⟨select rng (min 10 filtered.length) filtered, ?_⟩⟩
  unfold sampleStep pdSample
  rw [if_neg (by omega : ¬ filtered.length < min 10 filtered.length)]

end Cord
